import Mathlib

/-!
Shallow embedding of the video-checker quality-control pipeline
(`video_checker.py`, the CLI variant, and `video_checker_gui.py`, the GUI
variant).  Python floats are modelled by exact rationals `ℚ`; the decoded
PCM byte stream is modelled by the list of its float samples; the free-form
diagnostic output of the external ffmpeg/ffprobe engine is modelled by the
already-parsed event lists that the regex scans extract from it (the claims
under verification are all about what the detectors do with those parsed
values, not about the regexes themselves).
-/

/-- Threshold constant `SHORT_SHOT_MIN_FRAMES = 5` (both variants). -/
def SHORT_SHOT_MIN_FRAMES : Nat := 5

/-- Threshold constant `PEAK_MAX_DURATION_S = 0.2` (both variants). -/
def PEAK_MAX_DURATION_S : ℚ := 1/5

/-- Threshold constant `PEAK_DBFS_THRESHOLD = -1.5` (GUI variant). -/
def PEAK_DBFS_THRESHOLD : ℝ := -1.5

/-- `self.peak_amplitude_threshold = 10 ** (PEAK_DBFS_THRESHOLD / 20)` set in
`VideoAnalyzer.__init__` (GUI variant): the linear amplitude ratio of the
dBFS threshold.  Irrational, hence modelled in `ℝ`; the sample-analysis
functions below take the threshold as a parameter. -/
noncomputable def peak_amplitude_threshold : ℝ :=
  (10 : ℝ) ^ (PEAK_DBFS_THRESHOLD / 20)

/-- `metadata` dict built by `VideoAnalyzer._get_video_metadata` (GUI):
fps, duration, sample rate and channel count.  The GUI keeps the channel
count both in `metadata['channels']` and in `self.num_channels`; the two are
updated identically, so one field models both. -/
structure Metadata where
  fps : ℚ
  duration : ℚ
  sample_rate : Nat
  channels : Nat
deriving DecidableEq, Repr

/-- Metadata of the CLI variant's `get_video_metadata`: only fps and
duration. -/
structure CliMetadata where
  fps : ℚ
  duration : ℚ
deriving DecidableEq, Repr

/-- Finding of the mute detectors: `{"start": ...}` with the channel index
attached when the per-channel GUI loop produced it. -/
structure MuteSegment where
  channel : Option Nat
  start : ℚ
deriving DecidableEq, Repr

/-- Finding of the short-shot detectors:
`{"start": start_time, "duration_frames": duration * fps}`. -/
structure ShortShot where
  start : ℚ
  duration_frames : ℚ
deriving DecidableEq, Repr

/-- Finding of the GUI peak detector: a channel index and
`start / sample_rate`. -/
structure AudioPeak where
  channel : Nat
  start : ℚ
deriving DecidableEq, Repr

/-- Finding of the black-frame detectors: the parsed
(black_start, black_end, black_duration) triple.  `stop` models the
`black_end` field. -/
structure BlackSegment where
  start : ℚ
  stop : ℚ
  duration : ℚ
deriving DecidableEq, Repr

/-- One stream object of the ffprobe JSON consumed by
`VideoAnalyzer._get_video_metadata`: its `codec_type` plus the fields the
code reads.  `r_frame_rate` is the parsed `num/den` pair (the sentinel
string `"0/0"` is the pair `(0, 0)`). -/
inductive ProbeStream where
  | video (rate : Option (Int × Int)) (dur : Option ℚ)
  | audio (rate : Option Nat) (ch : Option Nat)
  | other
deriving DecidableEq, Repr

/-- One iteration of the stream loop in `_get_video_metadata` (GUI): a
video stream may overwrite fps (`num / den if den != 0 else 25.0`, skipped
entirely for `"0/0"`) and duration; an audio stream may overwrite sample
rate and channel count. -/
def guiMetaStep (m : Metadata) (s : ProbeStream) : Metadata :=
  match s with
  | .video r d =>
      ⟨(match r with
        | some (n, dn) =>
            if n = 0 ∧ dn = 0 then m.fps
            else if dn ≠ 0 then (n : ℚ) / (dn : ℚ) else 25
        | none => m.fps),
       (match d with
        | some v => v
        | none => m.duration),
       m.sample_rate, m.channels⟩
  | .audio sr ch =>
      ⟨m.fps, m.duration,
       (match sr with | some v => v | none => m.sample_rate),
       (match ch with | some c => c | none => m.channels)⟩
  | .other => m

/-- `_get_video_metadata` (GUI) on successfully parsed JSON: defaults
`{fps: 25.0, duration: 0.0, sample_rate: 48000, channels: declared}`
folded over the stream list. -/
def guiResolveMeta (declared : Nat) (streams : List ProbeStream) : Metadata :=
  streams.foldl guiMetaStep ⟨25, 0, 48000, declared⟩

/-- The `channels` field of a probe stream, present only on audio streams
that carry one. -/
def audioCh : ProbeStream → Option Nat
  | .audio _ ch => ch
  | _ => none

/-- The channel count reported by the last audio stream that carries one,
if any: this is the value that ends up in `self.num_channels`. -/
def lastAudioChannels (streams : List ProbeStream) : Option Nat :=
  (streams.filterMap audioCh).getLast?

/-- The CLI `get_video_metadata` frame-rate field: either a `num/den`
string or a plain float string. -/
inductive FpsField where
  | rational (n d : Int)
  | plain (q : ℚ)
deriving DecidableEq, Repr

/-- CLI fps computation: `num / den if den != 0 else 0` for a rational
field, the parsed float otherwise. -/
def cliFps : FpsField → ℚ
  | .rational n d => if d ≠ 0 then (n : ℚ) / (d : ℚ) else 0
  | .plain q => q

/-- CLI `get_video_metadata` after a successful probe (`none` models the
caught `CalledProcessError`/`IndexError`/`ValueError` path that returns
`None`). -/
def cliGetMetadata (probe : Option (FpsField × ℚ)) : Option CliMetadata :=
  probe.map (fun p => ⟨cliFps p.1, p.2⟩)

/-- The shot loop shared by both variants:
`for i in range(len(times)-1)` flags the pair iff
`0 < duration < SHORT_SHOT_MIN_FRAMES / fps` and records
`{"start": start_time, "duration_frames": duration * fps}`. -/
def shortShotsFromCuts (fps : ℚ) (minFrames : Nat) (times : List ℚ) :
    List ShortShot :=
  (List.range (times.length - 1)).filterMap (fun i =>
    if 0 < times.getD (i + 1) 0 - times.getD i 0 ∧
       times.getD (i + 1) 0 - times.getD i 0 < (minFrames : ℚ) / fps then
      some ⟨times.getD i 0, (times.getD (i + 1) 0 - times.getD i 0) * fps⟩
    else none)

/-- `VideoAnalyzer._find_short_shots` (GUI), from the parsed scene-cut
times: skips (returns `none`) when metadata is missing or `fps == 0` or
`duration == 0`; otherwise seeds the cut list with `0.0` and the total
duration and runs the shot loop. -/
def guiFindShortShots (md : Option Metadata) (cuts : List ℚ) :
    Option (List ShortShot) :=
  match md with
  | none => none
  | some m =>
      if m.fps = 0 ∨ m.duration = 0 then none
      else some (shortShotsFromCuts m.fps SHORT_SHOT_MIN_FRAMES
                  (0 :: cuts ++ [m.duration]))

/-- `find_short_shots` (CLI): skips when metadata is `None` or
`fps == 0`; otherwise identical to the GUI loop. -/
def cliFindShortShots (md : Option CliMetadata) (cuts : List ℚ) :
    Option (List ShortShot) :=
  match md with
  | none => none
  | some m =>
      if m.fps = 0 then none
      else some (shortShotsFromCuts m.fps SHORT_SHOT_MIN_FRAMES
                  (0 :: cuts ++ [m.duration]))

/-- `find_audio_peaks` (CLI): the function body only prints an explanatory
message and returns the empty list, for every file and channel count. -/
def cliFindAudioPeaks (filePath : String) (numChannels : Nat) :
    List AudioPeak := []

/-- `is_peak = np.abs(channel_data) > self.peak_amplitude_threshold`:
the boolean mask of one channel's samples against the linear threshold. -/
def peakMask (thr : ℚ) (xs : List ℚ) : List Bool :=
  xs.map (fun x => decide (thr < |x|))

/-- `astype(int)` of a boolean. -/
def b2i (b : Bool) : Int := if b then 1 else 0

/-- Entry `j` of a mask, `false` past the end (the implicit `append=0`
padding). -/
def mAt (m : List Bool) (j : Nat) : Bool := m.getD j false

/-- Entry `j - 1` of a mask, `false` for `j = 0` (the implicit `prepend=0`
padding). -/
def prevAt (m : List Bool) : Nat → Bool
  | 0 => false
  | k + 1 => mAt m k

/-- `np.diff(is_peak.astype(int), prepend=0, append=0)`: first differences
of the mask padded with `false` at both ends; entry `j` is
`mask[j] - mask[j-1]` with the out-of-range entries read as `false`. -/
def diffs (m : List Bool) : List Int :=
  List.zipWith (fun a b => b2i b - b2i a) (false :: m) (m ++ [false])

/-- `np.where(l == v)[0]`: the ascending list of indices at which `l`
holds value `v`. -/
def idxWhere (l : List Int) (v : Int) : List Nat :=
  (List.range l.length).filter (fun j => decide (l.getD j 0 = v))

/-- `starts = np.where(diff == 1)[0]`. -/
def runStarts (m : List Bool) : List Nat := idxWhere (diffs m) 1

/-- `ends = np.where(diff == -1)[0]`. -/
def runEnds (m : List Bool) : List Nat := idxWhere (diffs m) (-1)

/-- `zip(starts, ends)`: the maximal above-threshold runs of a mask as
(start index, exclusive end index) pairs. -/
def runsOf (m : List Bool) : List (Nat × Nat) :=
  (runStarts m).zip (runEnds m)

/-- The per-run duration test `0 < duration_s < PEAK_MAX_DURATION_S`
with `duration_s = (end - start) / sample_rate`. -/
def durOKb (sr maxDur : ℚ) (r : Nat × Nat) : Bool :=
  decide (0 < ((r.2 : ℚ) - (r.1 : ℚ)) / sr) &&
  decide (((r.2 : ℚ) - (r.1 : ℚ)) / sr < maxDur)

/-- The runs that survive the duration filter of the peak loop. -/
def keptRuns (sr maxDur : ℚ) (rs : List (Nat × Nat)) : List (Nat × Nat) :=
  rs.filter (durOKb sr maxDur)

/-- The per-channel body of `_find_audio_peaks` (GUI): build the mask,
short-circuit when no sample exceeds the threshold
(`if not np.any(is_peak): continue`), otherwise detect runs by the padded
first difference and return `start / sample_rate` for every run whose
duration passes the filter. -/
def findPeaksInChannel (sr thr maxDur : ℚ) (xs : List ℚ) : List ℚ :=
  if (peakMask thr xs).any id then
    (keptRuns sr maxDur (runsOf (peakMask thr xs))).map
      (fun r => (r.1 : ℚ) / sr)
  else []

/-- Column `i` of `audio_data.reshape(-1, C)`: sample `j` of channel `i`
is the interleaved sample at flat index `j * C + i`. -/
def channelData (raw : List ℚ) (C i : Nat) : List ℚ :=
  (List.range (raw.length / C)).map (fun j => raw.getD (j * C + i) 0)

/-- The channel loop of `_find_audio_peaks` (GUI) after a successful
reshape: every channel is analysed independently on its own column and its
peak start times are tagged with the channel index. -/
def findAudioPeaksCore (sr C : Nat) (thr : ℚ) (raw : List ℚ) :
    List AudioPeak :=
  (List.range C).flatMap (fun i =>
    (findPeaksInChannel (sr : ℚ) thr PEAK_MAX_DURATION_S
      (channelData raw C i)).map (fun t => ⟨i, t⟩))

/-- Outcome of `VideoAnalyzer._find_audio_peaks` (GUI): the early returns
(missing audio metadata, undecodable stream, channel-count mismatch) are
explicit non-`ok` constructors, each corresponding to one logged warning
path of the code. -/
inductive PeakOutcome where
  | noAudioMeta
  | decodeFailed
  | channelMismatch
  | ok (findings : List AudioPeak)
deriving DecidableEq, Repr

/-- `VideoAnalyzer._find_audio_peaks` (GUI): guard chain in source order -
no metadata / falsy sample rate, empty decoded byte stream, total sample
count not divisible by `self.num_channels` - then reshape and the channel
loop. -/
def guiFindAudioPeaks (md : Option Metadata) (numChannels : Nat) (thr : ℚ)
    (raw : List ℚ) : PeakOutcome :=
  match md with
  | none => .noAudioMeta
  | some m =>
      if m.sample_rate = 0 then .noAudioMeta
      else if raw = [] then .decodeFailed
      else if raw.length % numChannels ≠ 0 then .channelMismatch
      else .ok (findAudioPeaksCore m.sample_rate numChannels thr raw)

/-- `_find_mute_segments_per_channel` (GUI), from the per-channel parsed
`silence_start` timestamps: channel `i` contributes one `MuteSegment`
per parsed event. -/
def guiMuteFindings (C : Nat) (silence : List (List ℚ)) :
    List MuteSegment :=
  (List.range C).flatMap (fun i =>
    (silence.getD i []).map (fun t => ⟨some i, t⟩))

/-- `_find_black_frames` / `find_black_frames`, from the parsed
(start, end, duration) triples. -/
def blackFindings (l : List (ℚ × ℚ × ℚ)) : List BlackSegment :=
  l.map (fun t => ⟨t.1, t.2.1, t.2.2⟩)

/-- The parsed inputs one GUI analysis run consumes: the ffprobe JSON
(`none` models the exception path of `_get_video_metadata`), the
per-channel `silence_start` events, the scene-cut `pts_time` values, the
decoded PCM samples, and the blackdetect triples. -/
structure GuiInputs where
  probe : Option (List ProbeStream)
  silence : List (List ℚ)
  cuts : List ℚ
  pcm : List ℚ
  black : List (ℚ × ℚ × ℚ)
deriving DecidableEq, Repr

/-- The findings of one GUI run, one field per detector in execution
order. -/
structure GuiReport where
  mute : List MuteSegment
  shots : Option (List ShortShot)
  peaks : PeakOutcome
  black : List BlackSegment
deriving DecidableEq, Repr

/-- `VideoAnalyzer.run_analysis` (GUI): when `_get_video_metadata` returns
`None` the method returns before any detector runs (`none`); otherwise the
four detectors run on the resolved metadata, the peak detector receiving
the updated `self.num_channels`. -/
def guiRunAnalysis (declared : Nat) (thr : ℚ) (inp : GuiInputs) :
    Option GuiReport :=
  match inp.probe with
  | none => none
  | some streams =>
      let md := guiResolveMeta declared streams
      some ⟨guiMuteFindings md.channels inp.silence,
            guiFindShortShots (some md) inp.cuts,
            guiFindAudioPeaks (some md) md.channels thr inp.pcm,
            blackFindings inp.black⟩

/-- The findings of one CLI run of `main`. -/
structure CliReport where
  mute : List MuteSegment
  shots : Option (List ShortShot)
  peaks : List AudioPeak
  black : List BlackSegment
deriving DecidableEq, Repr

/-- `main` (CLI) after the ffmpeg availability check: the four detector
calls in source order; the mute and black detectors consume their parsed
events unconditionally, the shot detector receives the (possibly `None`)
metadata, the peak detector is the stub. -/
def cliRun (file : String) (channels : Nat) (md : Option CliMetadata)
    (silence : List ℚ) (cuts : List ℚ) (black : List (ℚ × ℚ × ℚ)) :
    CliReport :=
  ⟨silence.map (fun t => ⟨none, t⟩),
   cliFindShortShots md cuts,
   cliFindAudioPeaks file channels,
   blackFindings black⟩

/-! ## Helper lemmas -/

theorem getLastD_cons (c x : Nat) (l : List Nat) :
    ((c :: l).getLast?).getD x = (l.getLast?).getD c := by
  cases l with
  | nil => rfl
  | cons a t =>
    rw [List.getLast?_cons_cons]
    have h : ((a :: t).getLast?).isSome := by
      rw [List.getLast?_isSome]
      exact List.cons_ne_nil a t
    obtain ⟨y, hy⟩ := Option.isSome_iff_exists.mp h
    rw [hy]
    rfl

theorem channels_foldl (streams : List ProbeStream) :
    ∀ init : Metadata,
      (streams.foldl guiMetaStep init).channels =
        ((streams.filterMap audioCh).getLast?).getD init.channels := by
  induction streams with
  | nil => intro init; rfl
  | cons s ss ih =>
    intro init
    rw [List.foldl_cons, ih]
    cases s with
    | video r d => rfl
    | audio sr ch =>
      cases ch with
      | none => rfl
      | some c =>
        show ((ss.filterMap audioCh).getLast?).getD c =
          (((ProbeStream.audio sr (some c) :: ss).filterMap
            audioCh).getLast?).getD init.channels
        rw [List.filterMap_cons]
        show ((ss.filterMap audioCh).getLast?).getD c =
          ((c :: ss.filterMap audioCh).getLast?).getD init.channels
        rw [getLastD_cons]
    | other => rfl

theorem mem_shortShotsFromCuts (fps : ℚ) (minF : Nat) (ts : List ℚ)
    (x : ShortShot) :
    x ∈ shortShotsFromCuts fps minF ts ↔
      ∃ i, i + 1 < ts.length ∧
        0 < ts.getD (i + 1) 0 - ts.getD i 0 ∧
        ts.getD (i + 1) 0 - ts.getD i 0 < (minF : ℚ) / fps ∧
        x = ⟨ts.getD i 0, (ts.getD (i + 1) 0 - ts.getD i 0) * fps⟩ := by
  unfold shortShotsFromCuts
  rw [List.mem_filterMap]
  constructor
  · rintro ⟨i, hi, hfi⟩
    rw [List.mem_range] at hi
    by_cases hc : 0 < ts.getD (i + 1) 0 - ts.getD i 0 ∧
        ts.getD (i + 1) 0 - ts.getD i 0 < (minF : ℚ) / fps
    · rw [if_pos hc] at hfi
      exact ⟨i, by omega, hc.1, hc.2, (Option.some.inj hfi).symm⟩
    · rw [if_neg hc] at hfi
      exact absurd hfi (Option.noConfusion)
  · rintro ⟨i, hi, h1, h2, rfl⟩
    refine ⟨i, List.mem_range.mpr (by omega), ?_⟩
    rw [if_pos ⟨h1, h2⟩]

/-! ## Claims -/

/-- C7: on metadata `{fps = 25, duration = 10.0}`, scene-cut sequence
`[0.0, 2.0, 2.12, 10.0]` and `min_frames = 5`, the shot detector computes
`min_duration = 0.2 s` and reports exactly one finding,
`ShortShot{start = 2.0, duration_frames = 3.0}`; the 2.0 s and 7.88 s
intervals are not flagged. -/
theorem claim_C7 :
    guiFindShortShots (some ⟨25, 10, 48000, 8⟩) [2, 2.12] =
      some [⟨2, 3⟩] ∧
    shortShotsFromCuts 25 SHORT_SHOT_MIN_FRAMES [0, 2, 2.12, 10] =
      [⟨2, 3⟩] ∧
    (SHORT_SHOT_MIN_FRAMES : ℚ) / 25 = 0.2 := by
  refine ⟨?_, ?_, ?_⟩
  · norm_num [guiFindShortShots, shortShotsFromCuts, SHORT_SHOT_MIN_FRAMES,
      List.range_succ, List.getD, List.filterMap_cons, List.filterMap_append]
  · norm_num [shortShotsFromCuts, SHORT_SHOT_MIN_FRAMES, List.range_succ,
      List.getD, List.filterMap_cons, List.filterMap_append]
  · norm_num [SHORT_SHOT_MIN_FRAMES]

/-- C9: the CLI variant's `find_audio_peaks` returns the empty list for
every input file and channel count, so a CLI run never reports an
`AudioPeak` finding. -/
theorem claim_C9 :
    (∀ (file : String) (channels : Nat),
       cliFindAudioPeaks file channels = []) ∧
    (∀ (file : String) (channels : Nat) (md : Option CliMetadata)
       (silence cuts : List ℚ) (black : List (ℚ × ℚ × ℚ)),
       (cliRun file channels md silence cuts black).peaks = []) :=
  ⟨fun _ _ => rfl, fun _ _ _ _ _ _ => rfl⟩

/-- C5 counterexample: in the GUI variant a rational frame rate `30/0`
makes the divide-by-zero guard yield the default `25.0`, not `0` as the
claim states. -/
theorem claim_C5_cex :
    (guiResolveMeta 8 [.video (some (30, 0)) (some 10)]).fps = 25 ∧
    ¬ (guiResolveMeta 8 [.video (some (30, 0)) (some 10)]).fps = 0 := by
  have h : (guiResolveMeta 8 [.video (some (30, 0)) (some 10)]).fps = 25 :=
    rfl
  refine ⟨h, ?_⟩
  rw [h]
  norm_num

/-- C5 (amended): the CLI resolver computes `fps = num/den`, its
divide-by-zero guard yields `fps = 0`, and a zero fps makes the CLI shot
detector report skipped; the GUI resolver's guard instead yields the
default `25.0` on a zero denominator (leaving the field untouched for the
`0/0` sentinel), so it does not disable shot analysis. -/
theorem claim_C5 :
    (∀ n d : Int, d ≠ 0 → cliFps (.rational n d) = (n : ℚ) / (d : ℚ)) ∧
    (∀ n : Int, cliFps (.rational n 0) = 0) ∧
    (∀ probe : FpsField × ℚ,
       cliGetMetadata (some probe) = some ⟨cliFps probe.1, probe.2⟩) ∧
    (∀ (d : ℚ) (cuts : List ℚ),
       cliFindShortShots (some ⟨0, d⟩) cuts = none) ∧
    (∀ (m : Metadata) (n : Int) (dur : Option ℚ),
       (guiMetaStep m (.video (some (n, 0)) dur)).fps = 25 ∨
       (n = 0 ∧ (guiMetaStep m (.video (some (n, 0)) dur)).fps = m.fps)) := by
  refine ⟨?_, ?_, ?_, ?_, ?_⟩
  · intro n d hd
    simp [cliFps, hd]
  · intro n
    simp [cliFps]
  · intro probe
    rfl
  · intro d cuts
    simp [cliFindShortShots]
  · intro m n dur
    by_cases hn : n = 0
    · subst hn
      right
      exact ⟨rfl, by simp [guiMetaStep]⟩
    · left
      simp [guiMetaStep, hn]

/-- C5 witness: a nonzero denominator, `30/2`, resolves to `30/2` in the
CLI variant. -/
theorem claim_C5_witness :
    cliFps (.rational 30 2) = (30 : ℚ) / (2 : ℚ) :=
  claim_C5.1 30 2 (by decide)

/-- C6 counterexample: in the GUI variant a metadata-resolution failure
aborts `run_analysis` before any detector runs, so the mute detector does
not execute and contributes nothing even when a silence event exists. -/
theorem claim_C6_cex :
    guiRunAnalysis 8 1 ⟨none, [[5/2]], [], [], []⟩ = none ∧
    guiMuteFindings 8 [[5/2]] ≠ [] := by
  refine ⟨rfl, ?_⟩
  intro h
  have hl : (guiMuteFindings 8 [[5/2]]).length = 1 := rfl
  rw [h] at hl
  exact absurd hl (by simp)

/-- C6 (amended): in the CLI variant, when metadata resolution fails the
shot detector reports skipped and the peak stub returns no findings, while
the mute and black-frame detectors still run on their own parsed events;
in the GUI variant, a metadata-resolution failure aborts the whole
analysis before any detector runs. -/
theorem claim_C6 :
    (∀ (file : String) (channels : Nat) (silence cuts : List ℚ)
       (black : List (ℚ × ℚ × ℚ)),
       (cliRun file channels none silence cuts black).shots = none ∧
       (cliRun file channels none silence cuts black).peaks = [] ∧
       (cliRun file channels none silence cuts black).mute =
         silence.map (fun t => ⟨none, t⟩) ∧
       (cliRun file channels none silence cuts black).black =
         blackFindings black) ∧
    (∀ (declared : Nat) (thr : ℚ) (sil : List (List ℚ))
       (cuts pcm : List ℚ) (bl : List (ℚ × ℚ × ℚ)),
       guiRunAnalysis declared thr ⟨none, sil, cuts, pcm, bl⟩ = none) :=
  ⟨fun _ _ _ _ _ => ⟨rfl, rfl, rfl, rfl⟩, fun _ _ _ _ _ _ => rfl⟩

/-- C10: an empty decoded PCM stream makes the GUI peak detector report
the decode-failure outcome and no findings, although a total sample count
of zero is divisible by every channel count; the reshape and the channel
loop are never reached. -/
theorem claim_C10 :
    ∀ (m : Metadata) (C : Nat) (thr : ℚ),
      m.sample_rate ≠ 0 →
      guiFindAudioPeaks (some m) C thr [] = .decodeFailed ∧
      (List.length ([] : List ℚ)) % C = 0 ∧
      (∀ fs, guiFindAudioPeaks (some m) C thr [] ≠ .ok fs) := by
  intro m C thr hsr
  have hmain : guiFindAudioPeaks (some m) C thr [] = .decodeFailed := by
    simp [guiFindAudioPeaks, hsr]
  refine ⟨hmain, by simp, ?_⟩
  intro fs h
  rw [hmain] at h
  exact PeakOutcome.noConfusion h

/-- C10 witness: a concrete metadata record with the empty stream. -/
theorem claim_C10_witness :
    guiFindAudioPeaks (some ⟨25, 10, 48000, 8⟩) 8 1 [] = .decodeFailed :=
  (claim_C10 ⟨25, 10, 48000, 8⟩ 8 1 (by decide)).1

/-- C4: when the total decoded sample count is not divisible by the
channel count, the GUI peak detector returns the explicit mismatch
outcome - never a finding list and never a reshape - and the surrounding
`run_analysis` still produces the other three detectors' results from
their own inputs. -/
theorem claim_C4 :
    ∀ (m : Metadata) (thr : ℚ) (raw : List ℚ),
      m.sample_rate ≠ 0 → 0 < m.channels →
      raw.length % m.channels ≠ 0 →
      guiFindAudioPeaks (some m) m.channels thr raw = .channelMismatch ∧
      (∀ fs, guiFindAudioPeaks (some m) m.channels thr raw ≠ .ok fs) ∧
      (∀ (declared : Nat) (streams : List ProbeStream)
         (sil : List (List ℚ)) (cuts : List ℚ) (bl : List (ℚ × ℚ × ℚ)),
         guiResolveMeta declared streams = m →
         guiRunAnalysis declared thr ⟨some streams, sil, cuts, raw, bl⟩ =
           some ⟨guiMuteFindings m.channels sil,
                 guiFindShortShots (some m) cuts,
                 .channelMismatch,
                 blackFindings bl⟩) := by
  intro m thr raw hsr hc hmod
  have hraw : raw ≠ [] := by
    intro h
    rw [h] at hmod
    simp at hmod
  have hmain : guiFindAudioPeaks (some m) m.channels thr raw =
      .channelMismatch := by
    simp [guiFindAudioPeaks, hsr, hraw, hmod]
  refine ⟨hmain, ?_, ?_⟩
  · intro fs h
    rw [hmain] at h
    exact PeakOutcome.noConfusion h
  · intro declared streams sil cuts bl hres
    simp [guiRunAnalysis, hres, hmain]

/-- C4 witness: one sample against eight declared channels. -/
theorem claim_C4_witness :
    guiFindAudioPeaks (some ⟨25, 0, 48000, 8⟩) 8 1 [1] = .channelMismatch :=
  (claim_C4 ⟨25, 0, 48000, 8⟩ 1 [1] (by decide) (by decide) (by decide)).1

/-- C8: the decoded channel count - the one reported by the (last) audio
stream of the probe - overwrites the operator-declared value, and it is
this value that the peak detector receives and uses for the divisibility
check, the reshape into columns and the per-channel loop. -/
theorem claim_C8 :
    (∀ (declared : Nat) (streams : List ProbeStream) (c : Nat),
       lastAudioChannels streams = some c →
       (guiResolveMeta declared streams).channels = c) ∧
    (∀ (declared : Nat) (thr : ℚ) (streams : List ProbeStream)
       (sil : List (List ℚ)) (cuts pcm : List ℚ)
       (bl : List (ℚ × ℚ × ℚ)),
       guiRunAnalysis declared thr ⟨some streams, sil, cuts, pcm, bl⟩ =
         some ⟨guiMuteFindings (guiResolveMeta declared streams).channels
                 sil,
               guiFindShortShots (some (guiResolveMeta declared streams))
                 cuts,
               guiFindAudioPeaks (some (guiResolveMeta declared streams))
                 (guiResolveMeta declared streams).channels thr pcm,
               blackFindings bl⟩) ∧
    (∀ (m : Metadata) (C : Nat) (thr : ℚ) (raw : List ℚ),
       m.sample_rate ≠ 0 → raw ≠ [] → raw.length % C = 0 →
       guiFindAudioPeaks (some m) C thr raw =
         .ok ((List.range C).flatMap (fun i =>
           (findPeaksInChannel (m.sample_rate : ℚ) thr PEAK_MAX_DURATION_S
             (channelData raw C i)).map (fun t => ⟨i, t⟩)))) := by
  refine ⟨?_, ?_, ?_⟩
  · intro declared streams c h
    rw [guiResolveMeta, channels_foldl]
    rw [lastAudioChannels] at h
    rw [h]
    rfl
  · intro _ _ _ _ _ _ _
    rfl
  · intro m C thr raw hsr hraw hmod
    simp [guiFindAudioPeaks, hsr, hraw, hmod, findAudioPeaksCore]

/-- C8 witness: a probe whose audio stream decodes two channels while the
operator declared eight. -/
theorem claim_C8_witness :
    (guiResolveMeta 8 [ProbeStream.audio (some 48000) (some 2)]).channels =
      2 :=
  claim_C8.1 8 [ProbeStream.audio (some 48000) (some 2)] 2 rfl

/-- C3: over the cut sequence seeded with `0.0` and closed with the total
duration, a consecutive pair is recorded as
`ShortShot{start, duration_frames = (end - start) * fps}` iff
`0 < end - start < min_frames / fps` - so duplicate timestamps and
intervals exactly at the threshold are never flagged - and both variants
run exactly this loop on the seeded sequence whenever they do not skip. -/
theorem claim_C3 :
    (∀ (fps : ℚ) (ts : List ℚ) (x : ShortShot),
       x ∈ shortShotsFromCuts fps SHORT_SHOT_MIN_FRAMES ts ↔
         ∃ i, i + 1 < ts.length ∧
           0 < ts.getD (i + 1) 0 - ts.getD i 0 ∧
           ts.getD (i + 1) 0 - ts.getD i 0 <
             (SHORT_SHOT_MIN_FRAMES : ℚ) / fps ∧
           x = ⟨ts.getD i 0,
                (ts.getD (i + 1) 0 - ts.getD i 0) * fps⟩) ∧
    (∀ (m : Metadata) (cuts : List ℚ), m.fps ≠ 0 → m.duration ≠ 0 →
       guiFindShortShots (some m) cuts =
         some (shortShotsFromCuts m.fps SHORT_SHOT_MIN_FRAMES
           (0 :: cuts ++ [m.duration]))) ∧
    (∀ (m : CliMetadata) (cuts : List ℚ), m.fps ≠ 0 →
       cliFindShortShots (some m) cuts =
         some (shortShotsFromCuts m.fps SHORT_SHOT_MIN_FRAMES
           (0 :: cuts ++ [m.duration]))) := by
  refine ⟨?_, ?_, ?_⟩
  · intro fps ts x
    exact mem_shortShotsFromCuts fps SHORT_SHOT_MIN_FRAMES ts x
  · intro m cuts hf hd
    simp [guiFindShortShots, hf, hd]
  · intro m cuts hf
    simp [cliFindShortShots, hf]

/-- C3 witness: the seeded sequence `[0, 2, 10]` at 25 fps. -/
theorem claim_C3_witness :
    guiFindShortShots (some ⟨25, 10, 48000, 8⟩) [2] =
      some (shortShotsFromCuts 25 SHORT_SHOT_MIN_FRAMES
        (0 :: [2] ++ [10])) :=
  claim_C3.2.1 ⟨25, 10, 48000, 8⟩ [2] (by norm_num) (by norm_num)

/-! ## Run-detection lemmas for the padded first difference -/

theorem mAt_eq_getElem (m : List Bool) (j : Nat) (h : j < m.length) :
    mAt m j = m[j] := by
  rw [mAt, List.getD_eq_getElem?_getD, List.getElem?_eq_getElem h]
  rfl

theorem mAt_eq_false_of_le (m : List Bool) (j : Nat) (h : m.length ≤ j) :
    mAt m j = false := by
  rw [mAt, List.getD_eq_getElem?_getD, List.getElem?_eq_none h]
  rfl

theorem length_diffs (m : List Bool) : (diffs m).length = m.length + 1 := by
  simp [diffs]

theorem b2i_sub_one (a b : Bool) :
    (b2i a - b2i b = 1) ↔ (a = true ∧ b = false) := by
  cases a <;> cases b <;> decide

theorem b2i_sub_negOne (a b : Bool) :
    (b2i a - b2i b = -1) ↔ (a = false ∧ b = true) := by
  cases a <;> cases b <;> decide

theorem diffs_getD (m : List Bool) (j : Nat) (hj : j < m.length + 1) :
    (diffs m).getD j 0 = b2i (mAt m j) - b2i (prevAt m j) := by
  have hlen : j < (diffs m).length := by rw [length_diffs]; exact hj
  rw [List.getD_eq_getElem?_getD, List.getElem?_eq_getElem hlen]
  show (diffs m)[j] = b2i (mAt m j) - b2i (prevAt m j)
  simp only [diffs, List.getElem_zipWith]
  congr 1
  · -- the appended padding
    by_cases hjm : j < m.length
    · rw [List.getElem_append_left hjm, mAt_eq_getElem m j hjm]
    · have hje : j = m.length := by omega
      subst hje
      rw [List.getElem_append_right (le_refl m.length),
        mAt_eq_false_of_le m m.length (le_refl _)]
      simp
  · -- the prepended padding
    cases j with
    | zero => rfl
    | succ k =>
      have hk : k < m.length := by omega
      rw [List.getElem_cons_succ]
      show b2i m[k] = b2i (mAt m k)
      rw [mAt_eq_getElem m k hk]

theorem mem_idxWhere (l : List Int) (v : Int) (j : Nat) :
    j ∈ idxWhere l v ↔ j < l.length ∧ l.getD j 0 = v := by
  rw [idxWhere, List.mem_filter, List.mem_range]
  simp only [decide_eq_true_eq]

theorem mem_runStarts (m : List Bool) (j : Nat) :
    j ∈ runStarts m ↔
      j < m.length + 1 ∧ mAt m j = true ∧ prevAt m j = false := by
  rw [runStarts, mem_idxWhere, length_diffs]
  constructor
  · rintro ⟨hj, hd⟩
    rw [diffs_getD m j hj] at hd
    exact ⟨hj, (b2i_sub_one _ _).mp hd⟩
  · rintro ⟨hj, h1, h2⟩
    refine ⟨hj, ?_⟩
    rw [diffs_getD m j hj]
    exact (b2i_sub_one _ _).mpr ⟨h1, h2⟩

theorem mem_runEnds (m : List Bool) (j : Nat) :
    j ∈ runEnds m ↔
      j < m.length + 1 ∧ mAt m j = false ∧ prevAt m j = true := by
  rw [runEnds, mem_idxWhere, length_diffs]
  constructor
  · rintro ⟨hj, hd⟩
    rw [diffs_getD m j hj] at hd
    exact ⟨hj, (b2i_sub_negOne _ _).mp hd⟩
  · rintro ⟨hj, h1, h2⟩
    refine ⟨hj, ?_⟩
    rw [diffs_getD m j hj]
    exact (b2i_sub_negOne _ _).mpr ⟨h1, h2⟩

theorem pairwise_both {α : Type} {R : α → α → Prop} {l : List α}
    (h : l.Pairwise R) :
    ∀ a ∈ l, ∀ b ∈ l, a ≠ b → R a b ∨ R b a := by
  have h' : l.Pairwise (fun a b => R a b ∨ R b a) :=
    h.imp (fun hab => Or.inl hab)
  intro a ha b hb hne
  exact h'.forall (fun x y hxy => hxy.symm) ha hb hne

theorem eq_of_sorted_lt_mem {l₁ l₂ : List Nat} (h₁ : l₁.Pairwise (· < ·))
    (h₂ : l₂.Pairwise (· < ·)) (hmem : ∀ a, a ∈ l₁ ↔ a ∈ l₂) :
    l₁ = l₂ := by
  have d₁ : l₁.Nodup := h₁.imp (fun h => Nat.ne_of_lt h)
  have d₂ : l₂.Nodup := h₂.imp (fun h => Nat.ne_of_lt h)
  have hp : l₁.Perm l₂ := (List.perm_ext_iff_of_nodup d₁ d₂).mpr hmem
  exact List.eq_of_perm_of_sorted hp (h₁.imp (fun h => Nat.le_of_lt h))
    (h₂.imp (fun h => Nat.le_of_lt h))

theorem runStarts_sorted (m : List Bool) :
    (runStarts m).Pairwise (· < ·) :=
  List.Pairwise.sublist (List.filter_sublist _) (List.pairwise_lt_range _)

theorem runEnds_sorted (m : List Bool) :
    (runEnds m).Pairwise (· < ·) :=
  List.Pairwise.sublist (List.filter_sublist _) (List.pairwise_lt_range _)

theorem runStarts_eq_of_ranges (m : List Bool) (ranges : List (Nat × Nat))
    (Hm : ∀ j, mAt m j = true ↔ ∃ p ∈ ranges, p.1 ≤ j ∧ j < p.2)
    (hlt : ∀ p ∈ ranges, p.1 < p.2)
    (hub : ∀ p ∈ ranges, p.2 ≤ m.length)
    (hsep : ranges.Pairwise (fun p q => p.2 < q.1)) :
    runStarts m = ranges.map Prod.fst := by
  apply eq_of_sorted_lt_mem (runStarts_sorted m)
  · rw [List.pairwise_map]
    refine hsep.imp_of_mem ?_
    intro p q hp hq hpq
    exact lt_trans (hlt p hp) hpq
  · intro j
    rw [mem_runStarts, List.mem_map]
    constructor
    · rintro ⟨hj, hm, hp⟩
      obtain ⟨p, hpmem, hle, hlt2⟩ := (Hm j).mp hm
      refine ⟨p, hpmem, ?_⟩
      by_contra hne
      have h1 : p.1 < j := lt_of_le_of_ne hle hne
      cases j with
      | zero => omega
      | succ k =>
        have hk : mAt m k = true :=
          (Hm k).mpr ⟨p, hpmem, by omega, by omega⟩
        have hpk : prevAt m (k + 1) = mAt m k := rfl
        rw [hpk, hk] at hp
        exact Bool.noConfusion hp
    · rintro ⟨p, hpmem, rfl⟩
      have hplt := hlt p hpmem
      have hpub := hub p hpmem
      refine ⟨by omega, (Hm p.1).mpr ⟨p, hpmem, le_refl _, hplt⟩, ?_⟩
      cases hp1 : p.1 with
      | zero => rfl
      | succ k =>
        show mAt m k = false
        cases hmk : mAt m k with
        | false => rfl
        | true =>
          obtain ⟨q, hqmem, hq1, hq2⟩ := (Hm k).mp hmk
          by_cases hpq : p = q
          · subst hpq
            omega
          · rcases pairwise_both hsep p hpmem q hqmem hpq with h | h
            · omega
            · omega

theorem runEnds_eq_of_ranges (m : List Bool) (ranges : List (Nat × Nat))
    (Hm : ∀ j, mAt m j = true ↔ ∃ p ∈ ranges, p.1 ≤ j ∧ j < p.2)
    (hlt : ∀ p ∈ ranges, p.1 < p.2)
    (hub : ∀ p ∈ ranges, p.2 ≤ m.length)
    (hsep : ranges.Pairwise (fun p q => p.2 < q.1)) :
    runEnds m = ranges.map Prod.snd := by
  apply eq_of_sorted_lt_mem (runEnds_sorted m)
  · rw [List.pairwise_map]
    refine hsep.imp_of_mem ?_
    intro p q hp hq hpq
    exact lt_trans hpq (hlt q hq)
  · intro j
    rw [mem_runEnds, List.mem_map]
    constructor
    · rintro ⟨hj, hm, hp⟩
      cases j with
      | zero => exact Bool.noConfusion hp
      | succ k =>
        have hk : mAt m k = true := hp
        obtain ⟨p, hpmem, hle, hlt2⟩ := (Hm k).mp hk
        refine ⟨p, hpmem, ?_⟩
        by_contra hne
        have hkp : k + 1 < p.2 := by omega
        have hm2 : mAt m (k + 1) = true :=
          (Hm (k + 1)).mpr ⟨p, hpmem, by omega, hkp⟩
        rw [hm] at hm2
        exact Bool.noConfusion hm2
    · rintro ⟨p, hpmem, rfl⟩
      have hplt := hlt p hpmem
      have hpub := hub p hpmem
      refine ⟨by omega, ?_, ?_⟩
      · cases hmk : mAt m p.2 with
        | false => rfl
        | true =>
          obtain ⟨q, hqmem, hq1, hq2⟩ := (Hm p.2).mp hmk
          by_cases hpq : p = q
          · subst hpq
            omega
          · rcases pairwise_both hsep p hpmem q hqmem hpq with h | h
            · omega
            · have := hlt q hqmem
              omega
      · cases hp2 : p.2 with
        | zero => exact absurd hplt (by omega)
        | succ k =>
          show mAt m k = true
          exact (Hm k).mpr ⟨p, hpmem, by omega, by omega⟩

theorem zip_map_fst_snd {α β : Type} (l : List (α × β)) :
    (l.map Prod.fst).zip (l.map Prod.snd) = l := by
  induction l with
  | nil => rfl
  | cons a t ih => simp [ih]

theorem runsOf_eq_of_ranges (m : List Bool) (ranges : List (Nat × Nat))
    (Hm : ∀ j, mAt m j = true ↔ ∃ p ∈ ranges, p.1 ≤ j ∧ j < p.2)
    (hlt : ∀ p ∈ ranges, p.1 < p.2)
    (hub : ∀ p ∈ ranges, p.2 ≤ m.length)
    (hsep : ranges.Pairwise (fun p q => p.2 < q.1)) :
    runsOf m = ranges := by
  rw [runsOf, runStarts_eq_of_ranges m ranges Hm hlt hub hsep,
    runEnds_eq_of_ranges m ranges Hm hlt hub hsep, zip_map_fst_snd]

theorem runStarts_nil_of_not_any (m : List Bool) (h : m.any id = false) :
    runStarts m = [] := by
  rw [List.eq_nil_iff_forall_not_mem]
  intro j hj
  rw [mem_runStarts] at hj
  obtain ⟨hjlen, hm, _⟩ := hj
  have hjm : j < m.length := by
    by_contra hge
    rw [mAt_eq_false_of_le m j (by omega)] at hm
    exact Bool.noConfusion hm
  rw [mAt_eq_getElem m j hjm] at hm
  have hany : m.any id = true :=
    List.any_eq_true.mpr ⟨m[j], List.getElem_mem hjm, hm⟩
  rw [h] at hany
  exact Bool.noConfusion hany

theorem runsOf_nil_of_not_any (m : List Bool) (h : m.any id = false) :
    runsOf m = [] := by
  rw [runsOf, runStarts_nil_of_not_any m h]
  rfl

theorem findPeaksInChannel_eq (sr thr maxDur : ℚ) (xs : List ℚ) :
    findPeaksInChannel sr thr maxDur xs =
      (keptRuns sr maxDur (runsOf (peakMask thr xs))).map
        (fun r => (r.1 : ℚ) / sr) := by
  rw [findPeaksInChannel]
  by_cases h : (peakMask thr xs).any id = true
  · rw [if_pos h]
  · have h' : (peakMask thr xs).any id = false := by
      rwa [Bool.not_eq_true] at h
    rw [if_neg h, runsOf_nil_of_not_any _ h']
    rfl

theorem mem_findPeaksInChannel (sr thr maxDur : ℚ) (xs : List ℚ) (t : ℚ) :
    t ∈ findPeaksInChannel sr thr maxDur xs ↔
      ∃ r ∈ keptRuns sr maxDur (runsOf (peakMask thr xs)),
        t = (r.1 : ℚ) / sr := by
  rw [findPeaksInChannel_eq, List.mem_map]
  constructor
  · rintro ⟨r, hr, rfl⟩
    exact ⟨r, hr, rfl⟩
  · rintro ⟨r, hr, rfl⟩
    exact ⟨r, hr, rfl⟩

theorem durOKb_iff (sr maxDur : ℚ) (r : Nat × Nat) :
    durOKb sr maxDur r = true ↔
      0 < ((r.2 : ℚ) - (r.1 : ℚ)) / sr ∧
      ((r.2 : ℚ) - (r.1 : ℚ)) / sr < maxDur := by
  rw [durOKb, Bool.and_eq_true, decide_eq_true_eq, decide_eq_true_eq]

theorem peakMask_mAt (thr : ℚ) (xs : List ℚ) (ranges : List (Nat × Nat))
    (hub : ∀ p ∈ ranges, p.2 ≤ xs.length)
    (H : ∀ j, j < xs.length →
      (thr < |xs.getD j 0| ↔ ∃ p ∈ ranges, p.1 ≤ j ∧ j < p.2)) :
    ∀ j, mAt (peakMask thr xs) j = true ↔
      ∃ p ∈ ranges, p.1 ≤ j ∧ j < p.2 := by
  intro j
  by_cases hj : j < xs.length
  · have hjm : j < (peakMask thr xs).length := by
      rw [peakMask, List.length_map]
      exact hj
    rw [mAt_eq_getElem _ j hjm]
    simp only [peakMask, List.getElem_map, decide_eq_true_eq]
    have hx : xs[j] = xs.getD j 0 := by
      rw [List.getD_eq_getElem?_getD, List.getElem?_eq_getElem hj]
      rfl
    rw [hx]
    exact H j hj
  · rw [mAt_eq_false_of_le]
    · constructor
      · intro h
        exact Bool.noConfusion h
      · rintro ⟨p, hp, h1, h2⟩
        have := hub p hp
        exact absurd h2 (by omega)
    · rw [peakMask, List.length_map]
      omega

/-- C1: when a channel's amplitude exceeds the linear threshold exactly on
a list of separated, in-bounds index ranges, the padded-difference edge
detection identifies exactly those ranges - the `+1` transitions are the
range starts, the `-1` transitions the exclusive range ends - and the
channel's returned peak start times are the duration-passing ranges'
`start / sample_rate`, in strictly ascending order; every channel of
`_find_audio_peaks` runs this computation on its own column only. -/
theorem claim_C1 :
    ∀ (sr thr maxDur : ℚ) (xs : List ℚ) (ranges : List (Nat × Nat)),
      0 < sr →
      (∀ p ∈ ranges, p.1 < p.2) →
      (∀ p ∈ ranges, p.2 ≤ xs.length) →
      ranges.Pairwise (fun p q => p.2 < q.1) →
      (∀ j, j < xs.length →
        (thr < |xs.getD j 0| ↔ ∃ p ∈ ranges, p.1 ≤ j ∧ j < p.2)) →
      runStarts (peakMask thr xs) = ranges.map Prod.fst ∧
      runEnds (peakMask thr xs) = ranges.map Prod.snd ∧
      findPeaksInChannel sr thr maxDur xs =
        (ranges.filter (durOKb sr maxDur)).map (fun p => (p.1 : ℚ) / sr) ∧
      (findPeaksInChannel sr thr maxDur xs).Pairwise (· < ·) ∧
      ((∀ p ∈ ranges, durOKb sr maxDur p = true) →
        findPeaksInChannel sr thr maxDur xs =
          ranges.map (fun p => (p.1 : ℚ) / sr)) := by
  intro sr thr maxDur xs ranges hsr hlt hub hsep H
  have hub' : ∀ p ∈ ranges, p.2 ≤ (peakMask thr xs).length := by
    intro p hp
    rw [peakMask, List.length_map]
    exact hub p hp
  have Hm := peakMask_mAt thr xs ranges hub H
  have hS := runStarts_eq_of_ranges _ ranges Hm hlt hub' hsep
  have hE := runEnds_eq_of_ranges _ ranges Hm hlt hub' hsep
  have hR : runsOf (peakMask thr xs) = ranges := by
    rw [runsOf, hS, hE, zip_map_fst_snd]
  have hF : findPeaksInChannel sr thr maxDur xs =
      (ranges.filter (durOKb sr maxDur)).map (fun p => (p.1 : ℚ) / sr) := by
    rw [findPeaksInChannel_eq, hR]
    rfl
  have hfstlt : ranges.Pairwise (fun p q => p.1 < q.1) := by
    refine hsep.imp_of_mem ?_
    intro p q hp hq hpq
    exact lt_trans (hlt p hp) hpq
  refine ⟨hS, hE, hF, ?_, ?_⟩
  · rw [hF, List.pairwise_map]
    have hfilter : (ranges.filter (durOKb sr maxDur)).Pairwise
        (fun p q => p.1 < q.1) :=
      List.Pairwise.sublist (List.filter_sublist _) hfstlt
    refine hfilter.imp ?_
    intro p q h
    exact (div_lt_div_iff_of_pos_right hsr).mpr (by exact_mod_cast h)
  · intro hall
    rw [hF, List.filter_eq_self.mpr hall]

/-- C1 witness: samples `[0, 1, 1, 0, 0, 1, 0]` against threshold `1/2`
exceed it exactly on `[1,3)` and `[5,6)`, and the edge detection returns
exactly the starts `[1, 5]`. -/
theorem claim_C1_witness :
    runStarts (peakMask (1/2) [0, 1, 1, 0, 0, 1, 0]) =
      ([(1, 3), (5, 6)] : List (Nat × Nat)).map Prod.fst :=
  (claim_C1 2 (1/2) 10 [0, 1, 1, 0, 0, 1, 0] [(1, 3), (5, 6)]
    (by norm_num) (by decide) (by decide) (by decide)
    (by
      intro j hj
      have hj7 : j < 7 := by simpa using hj
      interval_cases j <;> norm_num [List.getD])).1

/-- C2: a run found by the GUI peak detector in channel `i` is emitted as
`AudioPeak{channel = i, start = start_index / sample_rate}` iff its
duration `(end_index - start_index) / sample_rate` lies strictly between
`0` and the maximum peak duration; a run of duration exactly the maximum
is never kept; and the analyzer's amplitude threshold is the linear ratio
`10 ^ (PEAK_DBFS_THRESHOLD / 20)`, the positive real whose 40th power is
`10 ^ (-3) = 1/1000`. -/
theorem claim_C2 :
    (∀ (sr C : Nat) (thr : ℚ) (raw : List ℚ) (a : AudioPeak),
       a ∈ findAudioPeaksCore sr C thr raw ↔
         ∃ i, i < C ∧
           ∃ r ∈ runsOf (peakMask thr (channelData raw C i)),
             (0 < ((r.2 : ℚ) - (r.1 : ℚ)) / (sr : ℚ) ∧
              ((r.2 : ℚ) - (r.1 : ℚ)) / (sr : ℚ) < PEAK_MAX_DURATION_S) ∧
             a = ⟨i, (r.1 : ℚ) / (sr : ℚ)⟩) ∧
    (∀ (sr maxDur : ℚ) (rs : List (Nat × Nat)) (r : Nat × Nat),
       r ∈ rs → ((r.2 : ℚ) - (r.1 : ℚ)) / sr = maxDur →
       r ∉ keptRuns sr maxDur rs) ∧
    0 < peak_amplitude_threshold ∧
    peak_amplitude_threshold ^ 40 = 1 / 1000 := by
  refine ⟨?_, ?_, ?_, ?_⟩
  · intro sr C thr raw a
    rw [findAudioPeaksCore, List.mem_flatMap]
    constructor
    · rintro ⟨i, hi, ha⟩
      rw [List.mem_range] at hi
      rw [List.mem_map] at ha
      obtain ⟨t, ht, rfl⟩ := ha
      rw [mem_findPeaksInChannel] at ht
      obtain ⟨r, hr, rfl⟩ := ht
      rw [keptRuns, List.mem_filter] at hr
      obtain ⟨hrmem, hrok⟩ := hr
      rw [durOKb_iff] at hrok
      exact ⟨i, hi, r, hrmem, hrok, rfl⟩
    · rintro ⟨i, hi, r, hrmem, hrok, rfl⟩
      refine ⟨i, List.mem_range.mpr hi, ?_⟩
      rw [List.mem_map]
      refine ⟨(r.1 : ℚ) / (sr : ℚ), ?_, rfl⟩
      rw [mem_findPeaksInChannel]
      refine ⟨r, ?_, rfl⟩
      rw [keptRuns, List.mem_filter]
      exact ⟨hrmem, (durOKb_iff _ _ _).mpr hrok⟩
  · intro sr maxDur rs r hmem heq hks
    rw [keptRuns, List.mem_filter, durOKb_iff] at hks
    have hlt := hks.2.2
    rw [heq] at hlt
    exact lt_irrefl _ hlt
  · exact Real.rpow_pos_of_pos (by norm_num) _
  · have hb : (0 : ℝ) ≤ 10 := by norm_num
    rw [peak_amplitude_threshold,
      ← Real.rpow_natCast ((10 : ℝ) ^ (PEAK_DBFS_THRESHOLD / 20)) 40,
      ← Real.rpow_mul hb]
    have he : PEAK_DBFS_THRESHOLD / 20 * ((40 : ℕ) : ℝ) =
        ((-3 : ℤ) : ℝ) := by
      rw [PEAK_DBFS_THRESHOLD]
      push_cast
      norm_num
    rw [he, Real.rpow_intCast]
    norm_num

/-- C2 witness: a run of 9600 samples at 48000 Hz lasts exactly 0.2 s and
is not kept. -/
theorem claim_C2_witness :
    ((1000, 10600) : Nat × Nat) ∉ keptRuns 48000 (1/5) [(1000, 10600)] :=
  claim_C2.2.1 48000 (1/5) [(1000, 10600)] (1000, 10600)
    (List.mem_singleton.mpr rfl) (by norm_num)
